import Mathlib

/-!
Verification development for the `parse-server-scheduler` package
(`src/index.js`), a daemon that turns persisted `_JobSchedule` records into
live cron timers and keeps an in-memory registry of them consistent.

The JavaScript source is shallowly embedded below: each definition mirrors one
method of the `ParseServerScheduler` class, with JS objects replaced by
structures, the timer heap made explicit, and effectful steps recorded as
event lists.
-/

set_option autoImplicit false

namespace PSScheduler

/-- Time-of-day anchor of a schedule; in the source this is
`moment(job.get('timeOfDay'), 'HH:mm:ss.Z').utc()`, of which
`_buildCronString` reads only `.hours()` and `.minutes()`. -/
structure TimeOfDay where
  hours : Nat
  minutes : Nat
deriving DecidableEq

/-- Shallow embedding of a `_JobSchedule` record as read by the scheduler.
`repeatMinutes` is `none` when the field is absent; `daysOfWeek` is `none`
when absent (a present but empty JS array is `some []`, which is truthy in
JS). `startAfter` is the timestamp in milliseconds. -/
structure JobRecord where
  id : String
  jobName : String
  params : Option String
  startAfter : Int
  repeatMinutes : Option Nat
  timeOfDay : TimeOfDay
  daysOfWeek : Option (List Bool)
deriving DecidableEq

/-- Loop body of `_daysOfWeekToCronString` (src/index.js lines 291-299):
walk the mask with index `i`, pushing `(i + 1) % 7` for every truthy entry. -/
def daysOfWeekNumbersAux : Nat → List Bool → List Nat
  | _, [] => []
  | i, b :: rest =>
    (if b then [(i + 1) % 7] else []) ++ daysOfWeekNumbersAux (i + 1) rest

/-- Embedding of `_daysOfWeekToCronString`: the collected numbers joined
with commas (`daysNumbers.join(',')`). -/
def daysOfWeekToCronString (daysOfWeek : List Bool) : String :=
  String.intercalate "," ((daysOfWeekNumbersAux 0 daysOfWeek).map toString)

/-- Embedding of the day-of-week dispatch on src/index.js line 156:
`(daysOfWeek) ? this._daysOfWeekToCronString(daysOfWeek) : '*'`.
An absent field is falsy; any present array (even `[]`) is truthy. -/
def cronDoW (daysOfWeek : Option (List Bool)) : String :=
  match daysOfWeek with
  | some d => daysOfWeekToCronString d
  | none => "*"

/-- Embedding of `_buildCronString` (src/index.js lines 150-185). The string
is accumulated exactly as the source concatenates it. An absent
`repeatMinutes` is read as 0 here; in JS it yields `NaN`, which is falsy in
both conditionals, producing the same output string. -/
def buildCronString (job : JobRecord) : String :=
  let timeOfDay := job.timeOfDay
  let repeatMinutes := job.repeatMinutes.getD 0
  let minutes := repeatMinutes % 60
  let hours := repeatMinutes / 60
  let cron1 := "0 "
  let cron2 := cron1 ++
    (if minutes ≠ 0 then
      toString timeOfDay.minutes ++ "-59/" ++ toString minutes ++ " "
    else "0 ")
  let cron3 := cron2 ++ (toString timeOfDay.hours ++ "-23")
  let cron4 := if hours ≠ 0 then cron3 ++ ("/" ++ toString hours) else cron3
  let cron5 := cron4 ++ " "
  let cron6 := cron5 ++ "* "
  let cron7 := cron6 ++ "* "
  cron7 ++ cronDoW job.daysOfWeek

/-- Trigger of a `CronJob` from the `cron` library: either an absolute fire
date (fire-once) or a cron expression (repeating). -/
inductive TimerTrigger
  | fireAt (time : Int)
  | cronExpr (s : String)
deriving DecidableEq

/-- Callbacks installed by the composer, one constructor per closure in the
source: `() => this._performJob(job)` (lines 216, 242),
`async () => { await this._performJob(job); job.destroy() }` (line 228), and
`() => { actualJob.start() }` (line 246), which starts the inner repeating
timer of the same composition. -/
inductive TimerCallback
  | performRecordJob (job : JobRecord)
  | performThenDestroy (job : JobRecord)
  | startInner
deriving DecidableEq

/-- State of one timer handle: its trigger, its installed callback, and
whether it is currently running. -/
structure CronJob where
  trigger : TimerTrigger
  callback : TimerCallback
  running : Bool
deriving DecidableEq

/-- Embedding of `_createCron` (src/index.js lines 188-199): the `CronJob`
constructor is called with start = `false`, so the timer is created in the
not-running state. -/
def createCron (startTime : TimerTrigger) (callback : TimerCallback) : CronJob :=
  { trigger := startTime, callback := callback, running := false }

/-- Model of `timer.start()`. -/
def CronJob.start (c : CronJob) : CronJob := { c with running := true }

/-- Model of `timer.stop()`. -/
def CronJob.stop (c : CronJob) : CronJob := { c with running := false }

/-- Observable side effects performed while composing timers or running a
timer callback: triggering the named job, or asking the persistence layer to
destroy the record. -/
inductive ComposeEvent
  | performJobNow (jobName : String)
  | destroyRecord (id : String)
deriving DecidableEq

/-- Result of classifying one record: the timer handles returned to the
registry, and the effects performed synchronously during composition. -/
structure ComposeResult where
  timers : List CronJob
  events : List ComposeEvent
deriving DecidableEq

/-- Embedding of `_jobInPast` (src/index.js lines 202-211): perform the job,
then destroy the record, and return no timers. -/
def jobInPast (job : JobRecord) : ComposeResult :=
  { timers := [], events := [.performJobNow job.jobName, .destroyRecord job.id] }

/-- Embedding of `_jobInPastRepeat` (lines 213-224): one repeating timer on
the built cron string, started immediately. -/
def jobInPastRepeat (job : JobRecord) : ComposeResult :=
  let cronString := buildCronString job
  let actualJob := createCron (.cronExpr cronString) (.performRecordJob job)
  { timers := [actualJob.start], events := [] }

/-- Embedding of `_jobInFuture` (lines 226-237): one fire-once timer armed
for `startAfter`, started immediately. -/
def jobInFuture (job : JobRecord) (startAfter : Int) : ComposeResult :=
  let scheduledStart := createCron (.fireAt startAfter) (.performThenDestroy job)
  { timers := [scheduledStart.start], events := [] }

/-- Embedding of `_jobInFutureRepeat` (lines 239-255): an inner repeating
timer `actualJob` that is created but not started, and an outer fire-once
timer `scheduledStart` whose callback starts the inner one; the outer timer
is started immediately and both are returned, outer first. -/
def jobInFutureRepeat (job : JobRecord) (startAfter : Int) : ComposeResult :=
  let cronString := buildCronString job
  let actualJob := createCron (.cronExpr cronString) (.performRecordJob job)
  let scheduledStart := createCron (.fireAt startAfter) .startInner
  { timers := [scheduledStart.start, actualJob], events := [] }

/-- Embedding of `_createCronJobs` (lines 258-285). `isInFuture` is
`moment(startAfter).isAfter()`, i.e. `startAfter > now` strictly; `isRepeat`
is `!!job.get('repeatMinutes')`, i.e. the field is present and nonzero. -/
def createCronJobs (now : Int) (job : JobRecord) : ComposeResult :=
  let isInFuture := now < job.startAfter
  let isRepeat := job.repeatMinutes.getD 0 ≠ 0
  if isInFuture then
    if isRepeat then jobInFutureRepeat job job.startAfter
    else jobInFuture job job.startAfter
  else
    if isRepeat then jobInPastRepeat job
    else jobInPast job

/-- Start the timer at position `j` of a composition, leaving the others
untouched (used to interpret the `actualJob.start()` closure, whose captured
`actualJob` is the second handle of its composition). -/
def startTimerAt : List CronJob → Nat → List CronJob
  | [], _ => []
  | t :: ts, 0 => t.start :: ts
  | t :: ts, j + 1 => t :: startTimerAt ts j

/-- Run the callback of the timer at index `i` of a composed timer list,
returning the updated timers and the effects the callback performs. Firing
an unknown index does nothing. -/
def fireTimer (timers : List CronJob) (i : Nat) : List CronJob × List ComposeEvent :=
  match timers.get? i with
  | none => (timers, [])
  | some t =>
    match t.callback with
    | .performRecordJob j => (timers, [.performJobNow j.jobName])
    | .performThenDestroy j => (timers, [.performJobNow j.jobName, .destroyRecord j.id])
    | .startInner => (startTimerAt timers 1, [])

/-- Lookup in the `cronJobs` map (a plain JS object keyed by record id),
returning the first binding for the key. -/
def regLookup : List (String × List Nat) → String → Option (List Nat)
  | [], _ => none
  | p :: rest, id => if p.1 = id then some p.2 else regLookup rest id

/-- Removal of a key from the `cronJobs` map (`delete this.cronJobs[id]`). -/
def regErase : List (String × List Nat) → String → List (String × List Nat)
  | [], _ => []
  | p :: rest, id => if p.1 = id then regErase rest id else p :: regErase rest id

/-- Lookup of a timer handle in the timer heap. -/
def heapGet : List (Nat × CronJob) → Nat → Option CronJob
  | [], _ => none
  | p :: rest, t => if p.1 = t then some p.2 else heapGet rest t

/-- Stop every heap timer whose handle is in `tids`
(the `for (let job of jobs) job.stop()` loop of `_destroySchedule`). -/
def stopAll (tids : List Nat) (heap : List (Nat × CronJob)) : List (Nat × CronJob) :=
  heap.map fun p => if p.1 ∈ tids then (p.1, p.2.stop) else p

/-- State of the scheduler instance: the heap of timer objects (handles are
allocation order numbers), the next fresh handle, and the `cronJobs` registry
mapping each record id to the handles it owns. -/
structure SchedState where
  heap : List (Nat × CronJob)
  next : Nat
  reg : List (String × List Nat)
deriving DecidableEq

/-- Every heap handle was allocated before `next`; holds for every state
reachable from the empty one. -/
def HeapBound (st : SchedState) : Prop :=
  ∀ p ∈ st.heap, p.1 < st.next

instance (st : SchedState) : Decidable (HeapBound st) := by
  unfold HeapBound; infer_instance

/-- Embedding of `_destroySchedule` (src/index.js lines 136-148): look the id
up; when absent, return unchanged; otherwise stop every owned timer and
delete the mapping. -/
def destroySchedule (st : SchedState) (id : String) : SchedState :=
  match regLookup st.reg id with
  | none => st
  | some tids =>
    { st with heap := stopAll tids st.heap, reg := regErase st.reg id }

/-- Embedding of `_destroySchedules` (lines 124-130): destroy every key, then
reset the registry to the empty object. -/
def destroySchedules (st : SchedState) : SchedState :=
  let st1 := (st.reg.map Prod.fst).foldl destroySchedule st
  { st1 with reg := [] }

/-- Allocate the composed timer objects on the heap, returning the new state
and the fresh handles in order. -/
def allocTimers (st : SchedState) : List CronJob → SchedState × List Nat
  | [] => (st, [])
  | t :: ts =>
    let st1 : SchedState :=
      { st with heap := st.heap ++ [(st.next, t)], next := st.next + 1 }
    let res := allocTimers st1 ts
    (res.1, st.next :: res.2)

/-- Embedding of `_recreateJobSchedule` (lines 114-119): first
`_destroySchedule(job.id)`, then `this.cronJobs[job.id] = await
this._createCronJobs(job)`, here split into allocating the composed timers
and installing the binding. -/
def recreateJobSchedule (st : SchedState) (id : String) (timers : List CronJob) : SchedState :=
  let st1 := destroySchedule st id
  let res := allocTimers st1 timers
  { res.1 with reg := (id, res.2) :: res.1.reg }

/-- Loop body of `_recreateScheduleForAllJobs` (lines 94-100): try to
recreate one record's schedule; a throw from `_createCronJobs` (abstracted
as the oracle `compose` returning `Except.error`) happens after the initial
destroy and is caught and logged (`console.error`), accumulated here in the
error list. -/
def resyncStep (compose : JobRecord → Except String (List CronJob))
    (acc : SchedState × List String) (job : JobRecord) : SchedState × List String :=
  match compose job with
  | .ok ts => (recreateJobSchedule acc.1 job.id ts, acc.2)
  | .error e => (destroySchedule acc.1 job.id, acc.2 ++ [e])

/-- Embedding of `_recreateScheduleForAllJobs` (lines 85-108): destroy all
schedules, then process each fetched record independently, logging (not
rethrowing) per-record failures. -/
def recreateScheduleForAllJobs (compose : JobRecord → Except String (List CronJob))
    (st : SchedState) (results : List JobRecord) : SchedState × List String :=
  results.foldl (resyncStep compose) (destroySchedules st, [])

/-- Process-level Parse credentials and server location read by
`_performJob`. -/
structure ParseConfig where
  serverURL : String
  applicationId : String
  masterKey : String
deriving DecidableEq

/-- Options object of the outbound `rp` call in `_performJob`
(src/index.js lines 313-325). -/
structure HttpRequest where
  method : String
  uri : String
  headerAppId : String
  headerMasterKey : String
  json : Bool
  body : Option String
deriving DecidableEq

/-- Request object produced by `_performJob`: `rp` is called with method
POST, the job-name endpoint, the two credential headers, `json: true` and no
body; afterwards, when `params` is truthy, `request.body = params` is
assigned on the returned object. -/
def buildJobRequest (cfg : ParseConfig) (job : JobRecord) : HttpRequest :=
  let request : HttpRequest :=
    { method := "POST"
      uri := cfg.serverURL ++ "/jobs/" ++ job.jobName
      headerAppId := cfg.applicationId
      headerMasterKey := cfg.masterKey
      json := true
      body := none }
  match job.params with
  | some params => { request with body := some params }
  | none => request

/-- Observable outcome of one `_performJob` invocation: what escapes to the
caller, what the catch block logs, and promise rejections nobody handles. -/
structure TriggerOutcome where
  thrownToCaller : Option String
  errorLogged : List String
  unhandledRejections : List String
deriving DecidableEq

/-- Embedding of `_performJob` (src/index.js lines 306-341). The whole body
sits in a try/catch whose catch logs via `console.error`; the statements in
the try block (reading record fields, building the options, launching `rp`,
conditionally assigning `request.body`) are all non-throwing here, so the
catch never runs and nothing is ever thrown to the caller. The promise
returned by `rp` is never awaited and gets no rejection handler, so when the
outbound call fails (`callOutcome = .error e`) the error bypasses the
try/catch entirely and is recorded as an unhandled rejection. -/
def performJob (cfg : ParseConfig) (job : JobRecord)
    (callOutcome : Except String Unit) : TriggerOutcome × HttpRequest :=
  let request := buildJobRequest cfg job
  ({ thrownToCaller := none
     errorLogged := []
     unhandledRejections :=
       match callOutcome with
       | .error e => [e]
       | .ok _ => [] }, request)

/-- Argument of `_recreateSchedule`: either a record id string or a loaded
`_JobSchedule` object. -/
inductive JobArg
  | byId (id : String)
  | byRecord (job : JobRecord)
deriving DecidableEq

/-- Value held by the local variable `job` in `_recreateSchedule` when the
type-check on line 73 runs: the record itself, or, for a string argument,
the un-awaited Promise returned by `this._retreiveJobBy(job)` (line 70 has
no `await`). -/
inductive JobLocal
  | record (j : JobRecord)
  | pendingPromise
deriving DecidableEq

/-- JS property read `job.className`: a `_JobSchedule` Parse object yields
the class name; a Promise has no such property (`undefined`). -/
def classNameOf : JobLocal → Option String
  | .record _ => some "_JobSchedule"
  | .pendingPromise => none

/-- Embedding of `_retreiveJobBy` (src/index.js lines 48-60). Its first
statement evaluates `createWithoutData(job)`, but no variable `job` is in
scope in this method (the parameter is named `jobId`), so the body throws a
ReferenceError before `fetch` is ever consulted; `fetch` models the
persistence lookup the method was meant to perform. -/
def retreiveJobBy (fetch : String → Option JobRecord) (jobId : String) :
    Except String JobRecord :=
  .error "ReferenceError: job is not defined"

/-- Embedding of `_recreateSchedule` (src/index.js lines 67-79) up to the
point where `_recreateJobSchedule` would run. For a string argument, `job`
is reassigned to the promise of `_retreiveJobBy` without `await`; the guard
on line 73 parses as `((!job) instanceof Parse.Object) || job.className !==
'_JobSchedule'`, whose first disjunct is always false, so it throws exactly
when `job.className` is not the string `_JobSchedule`. On success it returns
the record handed on to `_recreateJobSchedule`. -/
def recreateScheduleStep (arg : JobArg) : Except String JobRecord :=
  let job : JobLocal :=
    match arg with
    | .byId _ => .pendingPromise
    | .byRecord j => .record j
  if classNameOf job ≠ some "_JobSchedule" then
    .error "Invalid job type. Must be a _JobSchedule"
  else
    match job with
    | .record j => .ok j
    | .pendingPromise => .error "Invalid job type. Must be a _JobSchedule"

/-! Sample values used by the witness theorems. -/

/-- Sample schedule record used by witness theorems. -/
def sampleJob : JobRecord :=
  { id := "job1", jobName := "reportJob", params := some "keyA:1", startAfter := 1000,
    repeatMinutes := some 90, timeOfDay := { hours := 2, minutes := 30 },
    daysOfWeek := none }

/-- Sample one-shot record whose `startAfter` is in the past. -/
def samplePastJob : JobRecord :=
  { id := "job2", jobName := "cleanupJob", params := none, startAfter := -5,
    repeatMinutes := none, timeOfDay := { hours := 0, minutes := 0 },
    daysOfWeek := none }

/-- Sample scheduler state owning one running timer under id `"a"`. -/
def sampleState : SchedState :=
  { heap := [(0, { trigger := .cronExpr "0 0 2-23 * * *",
                   callback := .performRecordJob sampleJob, running := true })]
    next := 1
    reg := [("a", [0])] }

/-- Record differing from `sampleJob` only in its days-of-week mask. -/
def maskJob (mask : Option (List Bool)) : JobRecord :=
  { sampleJob with daysOfWeek := mask }

/-- Day-of-week numbers as the specification words them: the values
`(i + 1) % 7` for exactly those indices `i` at which the mask is true. -/
def specDowNumbers (mask : List Bool) : List Nat :=
  (List.range mask.length).filterMap fun i =>
    if mask.getD i false then some ((i + 1) % 7) else none

/-- Registry consistency invariant: every record id occurs at most once among
the keys of the `cronJobs` map. -/
def RegKeysNodup (st : SchedState) : Prop := (st.reg.map Prod.fst).Nodup

/-- Sample running fire-once timer, used as a first registered set. -/
def timerA : CronJob :=
  { trigger := .fireAt 5, callback := .startInner, running := true }

/-- Sample not-running repeating timer, used as a second registered set. -/
def timerB : CronJob :=
  { trigger := .cronExpr "0 0 0-23 * * *", callback := .performRecordJob samplePastJob,
    running := false }

/-- Sample composition oracle that fails on `sampleJob` and succeeds with no
timers on every other record. -/
def composeSample (j : JobRecord) : Except String (List CronJob) :=
  if j.id = "job1" then .error "boom" else .ok []

/-- Sample fetched record list for a full resync. -/
def resultsSample : List JobRecord := [sampleJob, samplePastJob]

/-- Sample Parse process configuration. -/
def sampleConfig : ParseConfig :=
  { serverURL := "http://localhost:1337/parse", applicationId := "appId",
    masterKey := "masterKey" }

/-- C1: for a record with `startAfter` strictly in the future and a nonzero
`repeatMinutes`, composition returns exactly the pair [outer fire-once timer,
inner repeating timer]; the outer is started and holds the start-inner
callback, the inner is a not-running cron timer, and firing the outer starts
the inner while performing no job and no record destruction. -/
theorem futureRepeat_two_chained_timers (now : Int) (job : JobRecord)
    (hFuture : now < job.startAfter) (hRepeat : job.repeatMinutes.getD 0 ≠ 0) :
    (createCronJobs now job).timers =
      [{ trigger := .fireAt job.startAfter, callback := .startInner, running := true },
       { trigger := .cronExpr (buildCronString job), callback := .performRecordJob job,
         running := false }]
    ∧ fireTimer (createCronJobs now job).timers 0 =
      ([{ trigger := .fireAt job.startAfter, callback := .startInner, running := true },
        { trigger := .cronExpr (buildCronString job), callback := .performRecordJob job,
          running := true }], []) := by
  have h : createCronJobs now job = jobInFutureRepeat job job.startAfter := by
    simp [createCronJobs, hFuture, hRepeat]
  constructor
  · simp [h, jobInFutureRepeat, createCron, CronJob.start]
  · simp [h, jobInFutureRepeat, createCron, CronJob.start, fireTimer, startTimerAt]

/-- Witness for `futureRepeat_two_chained_timers` at `now = 0` and
`sampleJob`. -/
theorem futureRepeat_two_chained_timers_witness :
    ((0 : Int) < sampleJob.startAfter ∧ sampleJob.repeatMinutes.getD 0 ≠ 0)
    ∧ ((createCronJobs 0 sampleJob).timers =
      [{ trigger := .fireAt sampleJob.startAfter, callback := .startInner, running := true },
       { trigger := .cronExpr (buildCronString sampleJob),
         callback := .performRecordJob sampleJob, running := false }]
    ∧ fireTimer (createCronJobs 0 sampleJob).timers 0 =
      ([{ trigger := .fireAt sampleJob.startAfter, callback := .startInner, running := true },
        { trigger := .cronExpr (buildCronString sampleJob),
          callback := .performRecordJob sampleJob, running := true }], [])) :=
  ⟨⟨by decide, by decide⟩,
    futureRepeat_two_chained_timers 0 sampleJob (by decide) (by decide)⟩

/-- C4: for a record whose `startAfter` is not in the future and whose
`repeatMinutes` is absent or zero, composition performs the job exactly once
and then requests record deletion, returns no timers, and registering the
result leaves the record id bound to an empty timer list. -/
theorem pastOnce_triggers_and_registers_nothing (now : Int) (job : JobRecord)
    (st : SchedState) (hPast : ¬ now < job.startAfter)
    (hNoRepeat : job.repeatMinutes.getD 0 = 0) :
    (createCronJobs now job).timers = []
    ∧ (createCronJobs now job).events =
        [.performJobNow job.jobName, .destroyRecord job.id]
    ∧ regLookup
        (recreateJobSchedule st job.id (createCronJobs now job).timers).reg
        job.id = some [] := by
  have h : createCronJobs now job = jobInPast job := by
    simp [createCronJobs, hPast, hNoRepeat]
  refine ⟨?_, ?_, ?_⟩ <;>
    simp [h, jobInPast, recreateJobSchedule, allocTimers, regLookup]

/-- Witness for `pastOnce_triggers_and_registers_nothing` at `now = 0`,
`samplePastJob` and `sampleState`. -/
theorem pastOnce_triggers_and_registers_nothing_witness :
    (¬ (0 : Int) < samplePastJob.startAfter ∧ samplePastJob.repeatMinutes.getD 0 = 0)
    ∧ ((createCronJobs 0 samplePastJob).timers = []
    ∧ (createCronJobs 0 samplePastJob).events =
        [.performJobNow samplePastJob.jobName, .destroyRecord samplePastJob.id]
    ∧ regLookup
        (recreateJobSchedule sampleState samplePastJob.id
          (createCronJobs 0 samplePastJob).timers).reg
        samplePastJob.id = some []) :=
  ⟨⟨by decide, by decide⟩,
    pastOnce_triggers_and_registers_nothing 0 samplePastJob sampleState
      (by decide) (by decide)⟩

theorem daysOfWeekNumbersAux_eq (l : List Bool) : ∀ i, daysOfWeekNumbersAux i l =
    (List.range l.length).filterMap fun k =>
      if l.getD k false then some ((i + k + 1) % 7) else none := by
  induction l with
  | nil => intro i; simp [daysOfWeekNumbersAux]
  | cons b rest ih =>
    intro i
    rw [daysOfWeekNumbersAux, ih (i + 1)]
    have hfun : ((fun k =>
          if ((b :: rest)[k]?).getD false = true then some ((i + k + 1) % 7) else none)
            ∘ Nat.succ)
        = fun k =>
          if (rest[k]?).getD false = true then some ((i + 1 + k + 1) % 7) else none := by
      funext k
      simp only [Function.comp_apply, List.getElem?_cons_succ]
      by_cases hk : (rest[k]?).getD false = true
      · simp only [hk, if_true]
        have harg : i + (k + 1) + 1 = i + 1 + k + 1 := by omega
        rw [harg]
      · simp [hk]
    simp only [List.length_cons, List.range_succ_eq_map, List.filterMap_cons,
      List.filterMap_map, List.getD_eq_getElem?_getD, List.getElem?_cons_zero,
      List.getElem?_cons_succ, hfun]
    cases b <;> simp

theorem daysOfWeekToCronString_spec (l : List Bool) :
    daysOfWeekToCronString l =
      String.intercalate "," ((specDowNumbers l).map toString) := by
  unfold daysOfWeekToCronString specDowNumbers
  rw [daysOfWeekNumbersAux_eq]
  simp

theorem buildCronString_eq_fields (job : JobRecord) :
    buildCronString job = String.intercalate " "
      ["0",
       if job.repeatMinutes.getD 0 % 60 ≠ 0 then
         toString job.timeOfDay.minutes ++ "-59/" ++
           toString (job.repeatMinutes.getD 0 % 60)
       else "0",
       toString job.timeOfDay.hours ++ "-23" ++
         (if job.repeatMinutes.getD 0 / 60 ≠ 0 then
           "/" ++ toString (job.repeatMinutes.getD 0 / 60)
         else ""),
       "*", "*",
       cronDoW job.daysOfWeek] := by
  by_cases hm : job.repeatMinutes.getD 0 % 60 = 0 <;>
    by_cases hh : job.repeatMinutes.getD 0 / 60 = 0 <;>
    simp only [buildCronString, hm, hh, ne_eq, not_true_eq_false,
      not_false_eq_true, ite_true, ite_false, if_true, if_false] <;>
    simp only [String.intercalate, String.intercalate.go] <;>
    simp [show ("0 " : String) = "0" ++ " " from rfl,
      show ("* " : String) = "*" ++ " " from rfl,
      String.append_assoc, String.append_empty]

/-- C2: for a repeat interval `r` with `0 < r < 1440` and any time-of-day
anchor, the built cron string is the six-field expression whose seconds
field is the literal `0`, whose minute field is the stepped range
`M-59/(r mod 60)` anchored at the minute when `r mod 60` is nonzero and the
literal `0` otherwise, whose hour field is `H-23` anchored at the hour with
step `/(r div 60)` appended exactly when `r div 60` is nonzero, and whose
day-of-month and month fields are both `*`. -/
theorem buildCron_six_fields (job : JobRecord) (r : Nat)
    (hr : job.repeatMinutes = some r) (h1 : 0 < r) (h2 : r < 1440) :
    buildCronString job = String.intercalate " "
      ["0",
       if r % 60 ≠ 0 then
         toString job.timeOfDay.minutes ++ "-59/" ++ toString (r % 60)
       else "0",
       toString job.timeOfDay.hours ++ "-23" ++
         (if r / 60 ≠ 0 then "/" ++ toString (r / 60) else ""),
       "*", "*",
       cronDoW job.daysOfWeek] := by
  rw [buildCronString_eq_fields, hr]
  simp only [Option.getD_some]

/-- Witness for `buildCron_six_fields` at `sampleJob` with `r = 90`. -/
theorem buildCron_six_fields_witness :
    (sampleJob.repeatMinutes = some 90 ∧ 0 < 90 ∧ 90 < 1440)
    ∧ buildCronString sampleJob = String.intercalate " "
      ["0",
       if 90 % 60 ≠ 0 then
         toString sampleJob.timeOfDay.minutes ++ "-59/" ++ toString (90 % 60)
       else "0",
       toString sampleJob.timeOfDay.hours ++ "-23" ++
         (if 90 / 60 ≠ 0 then "/" ++ toString (90 / 60) else ""),
       "*", "*",
       cronDoW sampleJob.daysOfWeek] :=
  ⟨⟨rfl, by decide, by decide⟩,
    buildCron_six_fields sampleJob 90 rfl (by decide) (by decide)⟩

/-- C6 counterexample: for a present but empty days-of-week mask, the
day-of-week component of the built cron expression is the empty string, not
the wildcard `*` the claim requires for an empty mask. -/
theorem dow_empty_mask_not_wildcard :
    buildCronString (maskJob (some [])) = "0 30-59/30 2-23/1 * * "
    ∧ cronDoW (some []) = ""
    ∧ cronDoW (some []) ≠ "*" :=
  ⟨by decide, by decide, by decide⟩

/-- C6 amended: the day-of-week field of the built cron expression is the
wildcard `*` exactly when the mask is absent; when a mask is present (even
an empty one) the field is the comma-joined list of `(i + 1) % 7` over the
indices where the mask is true, which is the empty string (not `*`) for an
empty or all-false mask. -/
theorem dow_field_wildcard_iff_absent (mask : Option (List Bool)) :
    buildCronString (maskJob mask) = "0 30-59/30 2-23/1 * * " ++ cronDoW mask
    ∧ cronDoW mask = (match mask with
        | none => "*"
        | some l => String.intercalate "," ((specDowNumbers l).map toString)) := by
  constructor
  · rw [buildCronString_eq_fields]
    simp only [maskJob, sampleJob]
    simp only [String.intercalate, String.intercalate.go]
    exact congrArg (fun t => t ++ cronDoW mask) (by decide)
  · cases mask with
    | none => rfl
    | some l => simpa [cronDoW] using daysOfWeekToCronString_spec l

/-- C10: destroying a schedule id that has no registry entry raises no error
and returns the state completely unchanged, so every timer registered under
other ids is untouched. -/
theorem destroy_unknown_id_noop (st : SchedState) (id : String)
    (h : regLookup st.reg id = none) : destroySchedule st id = st := by
  unfold destroySchedule
  rw [h]

/-- Witness for `destroy_unknown_id_noop`: destroying the unknown id `"b"`
in `sampleState` changes nothing. -/
theorem destroy_unknown_id_noop_witness :
    regLookup sampleState.reg "b" = none
    ∧ destroySchedule sampleState "b" = sampleState :=
  ⟨by decide, destroy_unknown_id_noop sampleState "b" (by decide)⟩

/-! Supporting lemmas about the registry map, the timer heap, allocation,
and the destroy and recreate operations. -/

theorem regLookup_erase_self (r : List (String × List Nat)) (id : String) :
    regLookup (regErase r id) id = none := by
  induction r with
  | nil => rfl
  | cons p rest ih => by_cases h : p.1 = id <;> simp [regErase, h, regLookup, ih]

theorem regLookup_erase_other (r : List (String × List Nat)) (id k : String)
    (hk : k ≠ id) : regLookup (regErase r id) k = regLookup r k := by
  induction r with
  | nil => rfl
  | cons p rest ih =>
    simp only [regErase]
    by_cases hp : p.1 = id
    · rw [if_pos hp, ih]
      have hpk : p.1 ≠ k := by rw [hp]; exact Ne.symm hk
      simp [regLookup, hpk]
    · rw [if_neg hp]
      simp only [regLookup]
      by_cases hk2 : p.1 = k
      · rw [if_pos hk2, if_pos hk2]
      · rw [if_neg hk2, if_neg hk2, ih]

theorem regLookup_eq_none_iff (r : List (String × List Nat)) (id : String) :
    regLookup r id = none ↔ id ∉ r.map Prod.fst := by
  induction r with
  | nil => simp [regLookup]
  | cons p rest ih =>
    simp only [regLookup, List.map_cons, List.mem_cons]
    by_cases h : p.1 = id
    · simp [h]
    · have hid : (id = p.1) ↔ False := ⟨fun hh => h hh.symm, False.elim⟩
      simp [h, ih, hid]

theorem heapGet_append_left (h1 h2 : List (Nat × CronJob)) (t : Nat)
    (h : (heapGet h1 t).isSome) : heapGet (h1 ++ h2) t = heapGet h1 t := by
  induction h1 with
  | nil => simp [heapGet] at h
  | cons p rest ih =>
    simp only [List.cons_append, heapGet] at h ⊢
    by_cases hp : p.1 = t
    · rw [if_pos hp, if_pos hp]
    · simp only [if_neg hp] at h ⊢
      exact ih h

theorem heapGet_append_right (h1 h2 : List (Nat × CronJob)) (t : Nat)
    (h : heapGet h1 t = none) : heapGet (h1 ++ h2) t = heapGet h2 t := by
  induction h1 with
  | nil => rfl
  | cons p rest ih =>
    simp only [List.cons_append, heapGet] at h ⊢
    by_cases hp : p.1 = t
    · rw [if_pos hp] at h; exact absurd h (by simp)
    · simp only [if_neg hp] at h ⊢
      exact ih h

theorem heapGet_stopAll (tids : List Nat) (heap : List (Nat × CronJob)) (t : Nat) :
    heapGet (stopAll tids heap) t =
      if t ∈ tids then (heapGet heap t).map CronJob.stop else heapGet heap t := by
  induction heap with
  | nil => simp [stopAll, heapGet]
  | cons p rest ih =>
    simp only [stopAll, List.map_cons] at ih ⊢
    by_cases hp : p.1 ∈ tids
    · rw [if_pos hp]
      simp only [heapGet]
      by_cases ht : p.1 = t
      · rw [if_pos ht, if_pos ht, if_pos (ht ▸ hp)]
        rfl
      · rw [if_neg ht, if_neg ht, ih]
    · rw [if_neg hp]
      simp only [heapGet]
      by_cases ht : p.1 = t
      · rw [if_pos ht, if_pos ht, if_neg (ht ▸ hp)]
      · rw [if_neg ht, if_neg ht, ih]

theorem heapGet_none_of_forall (heap : List (Nat × CronJob)) (t : Nat)
    (h : ∀ p ∈ heap, p.1 ≠ t) : heapGet heap t = none := by
  induction heap with
  | nil => rfl
  | cons p rest ih =>
    simp only [heapGet]
    rw [if_neg (h p (List.mem_cons_self p rest))]
    exact ih fun q hq => h q (List.mem_cons_of_mem p hq)

theorem allocTimers_reg (ts : List CronJob) : ∀ st : SchedState,
    (allocTimers st ts).1.reg = st.reg := by
  induction ts with
  | nil => intro st; rfl
  | cons t rest ih => intro st; simp only [allocTimers]; rw [ih]

theorem allocTimers_next (ts : List CronJob) : ∀ st : SchedState,
    (allocTimers st ts).1.next = st.next + ts.length := by
  induction ts with
  | nil => intro st; simp [allocTimers]
  | cons t rest ih =>
    intro st
    simp only [allocTimers]
    rw [ih]
    simp only [List.length_cons]
    omega

theorem allocTimers_bound (ts : List CronJob) : ∀ st : SchedState, HeapBound st →
    HeapBound (allocTimers st ts).1 := by
  induction ts with
  | nil => intro st hb; exact hb
  | cons t rest ih =>
    intro st hb
    simp only [allocTimers]
    refine ih _ ?_
    intro p hp
    simp only [List.mem_append, List.mem_singleton] at hp
    rcases hp with hp | rfl
    · exact Nat.lt_succ_of_lt (hb p hp)
    · exact Nat.lt_succ_self _

theorem allocTimers_heapGet_old (ts : List CronJob) : ∀ (st : SchedState) (t : Nat),
    t < st.next → heapGet (allocTimers st ts).1.heap t = heapGet st.heap t := by
  induction ts with
  | nil => intro st t _; rfl
  | cons c rest ih =>
    intro st t ht
    simp only [allocTimers]
    rw [ih _ t (Nat.lt_succ_of_lt ht)]
    rcases hx : heapGet st.heap t with _ | v
    · rw [heapGet_append_right _ _ _ hx]
      have hne : ¬ st.next = t := by omega
      simp [heapGet, hne]
    · rw [heapGet_append_left _ _ _ (by rw [hx]; rfl)]
      exact hx

theorem allocTimers_tids_lt (ts : List CronJob) : ∀ (st : SchedState),
    ∀ t ∈ (allocTimers st ts).2, t < (allocTimers st ts).1.next := by
  induction ts with
  | nil => intro st t ht; simp [allocTimers] at ht
  | cons c rest ih =>
    intro st t ht
    simp only [allocTimers, List.mem_cons] at ht ⊢
    rcases ht with rfl | ht
    · rw [allocTimers_next]
      simp only [List.length_cons]
      omega
    · exact ih _ t ht

theorem allocTimers_tids_len (ts : List CronJob) : ∀ st : SchedState,
    (allocTimers st ts).2.length = ts.length := by
  induction ts with
  | nil => intro st; rfl
  | cons c rest ih => intro st; simp [allocTimers, ih]

theorem allocTimers_heapGet_new (ts : List CronJob) : ∀ (st : SchedState), HeapBound st →
    ∀ i : Nat,
      ((allocTimers st ts).2[i]?).bind (heapGet (allocTimers st ts).1.heap) = ts[i]? := by
  induction ts with
  | nil => intro st hb i; simp [allocTimers]
  | cons c rest ih =>
    intro st hb i
    simp only [allocTimers]
    match i with
    | 0 =>
      simp only [List.getElem?_cons_zero]
      show heapGet
        (allocTimers { st with heap := st.heap ++ [(st.next, c)], next := st.next + 1 } rest).1.heap
        st.next = some c
      rw [allocTimers_heapGet_old rest _ st.next (Nat.lt_succ_self _)]
      have hnone : heapGet st.heap st.next = none :=
        heapGet_none_of_forall _ _ fun p hp => Nat.ne_of_lt (hb p hp)
      rw [heapGet_append_right _ _ _ hnone]
      simp [heapGet]
    | Nat.succ j =>
      simp only [List.getElem?_cons_succ]
      refine ih _ ?_ j
      intro p hp
      simp only [List.mem_append, List.mem_singleton] at hp
      rcases hp with hp | rfl
      · exact Nat.lt_succ_of_lt (hb p hp)
      · exact Nat.lt_succ_self _

theorem destroy_next (st : SchedState) (id : String) :
    (destroySchedule st id).next = st.next := by
  unfold destroySchedule
  rcases regLookup st.reg id <;> rfl

theorem destroy_reg_self (st : SchedState) (id : String) :
    regLookup (destroySchedule st id).reg id = none := by
  unfold destroySchedule
  rcases h : regLookup st.reg id with _ | tids
  · exact h
  · exact regLookup_erase_self st.reg id

theorem destroy_reg_other (st : SchedState) (id k : String) (hk : k ≠ id) :
    regLookup (destroySchedule st id).reg k = regLookup st.reg k := by
  unfold destroySchedule
  rcases h : regLookup st.reg id with _ | tids
  · rfl
  · exact regLookup_erase_other st.reg id k hk

theorem destroy_bound (st : SchedState) (id : String) (hb : HeapBound st) :
    HeapBound (destroySchedule st id) := by
  unfold destroySchedule
  rcases h : regLookup st.reg id with _ | tids
  · exact hb
  · intro p hp
    simp only [stopAll, List.mem_map] at hp
    obtain ⟨q, hq, hpq⟩ := hp
    have hfst : p.1 = q.1 := by
      by_cases hqin : q.1 ∈ tids
      · rw [if_pos hqin] at hpq; rw [← hpq]
      · rw [if_neg hqin] at hpq; rw [← hpq]
    show p.1 < st.next
    rw [hfst]
    exact hb q hq

theorem destroy_heapGet_mem (st : SchedState) (id : String) (tids : List Nat) (t : Nat)
    (h : regLookup st.reg id = some tids) (ht : t ∈ tids) :
    heapGet (destroySchedule st id).heap t = (heapGet st.heap t).map CronJob.stop := by
  unfold destroySchedule
  rw [h]
  show heapGet (stopAll tids st.heap) t = _
  rw [heapGet_stopAll, if_pos ht]

theorem recreate_reg_self (st : SchedState) (id : String) (ts : List CronJob) :
    regLookup (recreateJobSchedule st id ts).reg id =
      some (allocTimers (destroySchedule st id) ts).2 := by
  simp [recreateJobSchedule, regLookup]

theorem recreate_reg_other (st : SchedState) (id k : String) (ts : List CronJob)
    (hk : k ≠ id) :
    regLookup (recreateJobSchedule st id ts).reg k = regLookup st.reg k := by
  have hik : ¬ id = k := fun h => hk h.symm
  simp only [recreateJobSchedule, regLookup, if_neg hik]
  rw [allocTimers_reg, destroy_reg_other st id k hk]

theorem recreate_next (st : SchedState) (id : String) (ts : List CronJob) :
    (recreateJobSchedule st id ts).next = st.next + ts.length := by
  simp only [recreateJobSchedule]
  show (allocTimers (destroySchedule st id) ts).1.next = _
  rw [allocTimers_next, destroy_next]

theorem recreate_bound (st : SchedState) (id : String) (ts : List CronJob)
    (hb : HeapBound st) : HeapBound (recreateJobSchedule st id ts) := by
  intro p hp
  have hb2 := allocTimers_bound ts _ (destroy_bound st id hb)
  exact hb2 p hp

theorem recreate_heapGet_old (st : SchedState) (id : String) (ts : List CronJob)
    (t : Nat) (ht : t < st.next) :
    heapGet (recreateJobSchedule st id ts).heap t =
      heapGet (destroySchedule st id).heap t := by
  simp only [recreateJobSchedule]
  show heapGet (allocTimers (destroySchedule st id) ts).1.heap t = _
  rw [allocTimers_heapGet_old]
  rw [destroy_next]
  exact ht

theorem regErase_keys_not_mem (r : List (String × List Nat)) (id : String) :
    id ∉ (regErase r id).map Prod.fst := by
  induction r with
  | nil => simp [regErase]
  | cons p rest ih =>
    by_cases h : p.1 = id
    · simpa [regErase, h] using ih
    · simp only [regErase, if_neg h, List.map_cons, List.mem_cons]
      rintro (hh | hh)
      · exact h hh.symm
      · exact ih hh

theorem regErase_keys_sublist (r : List (String × List Nat)) (id : String) :
    ((regErase r id).map Prod.fst).Sublist (r.map Prod.fst) := by
  induction r with
  | nil => simp [regErase]
  | cons p rest ih =>
    by_cases h : p.1 = id
    · simp only [regErase, if_pos h, List.map_cons]
      exact ih.cons _
    · simp only [regErase, if_neg h, List.map_cons]
      exact ih.cons₂ _

theorem destroy_keys_nodup (st : SchedState) (id : String) (h : RegKeysNodup st) :
    RegKeysNodup (destroySchedule st id) := by
  unfold destroySchedule
  rcases hx : regLookup st.reg id with _ | tids
  · exact h
  · exact List.Nodup.sublist (regErase_keys_sublist st.reg id) h

theorem recreate_keys_nodup (st : SchedState) (id : String) (ts : List CronJob)
    (h : RegKeysNodup st) : RegKeysNodup (recreateJobSchedule st id ts) := by
  have h1 : regLookup (destroySchedule st id).reg id = none := destroy_reg_self st id
  have h2 : id ∉ ((destroySchedule st id).reg.map Prod.fst) :=
    (regLookup_eq_none_iff _ _).mp h1
  have h3 : RegKeysNodup (destroySchedule st id) := destroy_keys_nodup st id h
  show (((id, (allocTimers (destroySchedule st id) ts).2) ::
    (allocTimers (destroySchedule st id) ts).1.reg).map Prod.fst).Nodup
  rw [List.map_cons, List.nodup_cons, allocTimers_reg]
  exact ⟨h2, h3⟩

theorem resyncStep_reg_other (c : JobRecord → Except String (List CronJob))
    (acc : SchedState × List String) (job : JobRecord) (k : String) (hk : k ≠ job.id) :
    regLookup (resyncStep c acc job).1.reg k = regLookup acc.1.reg k := by
  cases hc : c job with
  | error e => simp only [resyncStep, hc]; exact destroy_reg_other _ _ _ hk
  | ok ts => simp only [resyncStep, hc]; exact recreate_reg_other _ _ _ _ hk

theorem resyncStep_errs_mem (c : JobRecord → Except String (List CronJob))
    (acc : SchedState × List String) (job : JobRecord) (e : String) (he : e ∈ acc.2) :
    e ∈ (resyncStep c acc job).2 := by
  cases hc : c job with
  | error e2 => simp only [resyncStep, hc]; exact List.mem_append_left _ he
  | ok ts => simpa only [resyncStep, hc] using he

theorem foldl_resync_reg_other (c : JobRecord → Except String (List CronJob))
    (rest : List JobRecord) (k : String) :
    ∀ acc, (∀ j ∈ rest, j.id ≠ k) →
      regLookup (rest.foldl (resyncStep c) acc).1.reg k = regLookup acc.1.reg k := by
  induction rest with
  | nil => intro acc _; rfl
  | cons job rest2 ih =>
    intro acc hall
    rw [List.foldl_cons, ih _ (fun j hj => hall j (List.mem_cons_of_mem _ hj)),
      resyncStep_reg_other c acc job k (Ne.symm (hall job (List.mem_cons_self _ _)))]

theorem foldl_resync_errs_mem (c : JobRecord → Except String (List CronJob))
    (rest : List JobRecord) (e : String) :
    ∀ acc, e ∈ acc.2 → e ∈ (rest.foldl (resyncStep c) acc).2 := by
  induction rest with
  | nil => intro acc he; exact he
  | cons job rest2 ih =>
    intro acc he
    rw [List.foldl_cons]
    exact ih _ (resyncStep_errs_mem c acc job e he)

theorem resync_aux (c : JobRecord → Except String (List CronJob)) (results : List JobRecord) :
    (results.map JobRecord.id).Nodup →
    ∀ acc : SchedState × List String,
      (∀ job ∈ results, ∀ ts, c job = .ok ts →
        (regLookup (results.foldl (resyncStep c) acc).1.reg job.id).isSome = true)
      ∧ (∀ job ∈ results, ∀ e, c job = .error e →
        e ∈ (results.foldl (resyncStep c) acc).2) := by
  induction results with
  | nil =>
    intro _ acc
    exact ⟨fun j hj => absurd hj (List.not_mem_nil j),
      fun j hj => absurd hj (List.not_mem_nil j)⟩
  | cons job rest ih =>
    intro hnd acc
    have hnd2 : (∀ x ∈ rest, ¬ x.id = job.id) ∧ (rest.map JobRecord.id).Nodup := by
      simpa using hnd
    constructor
    · intro j hj ts hok
      rw [List.foldl_cons]
      rcases List.mem_cons.mp hj with rfl | hjr
      · rw [foldl_resync_reg_other c rest j.id _ (fun x hx => hnd2.1 x hx)]
        simp only [resyncStep, hok]
        rw [recreate_reg_self]
        rfl
      · exact (ih hnd2.2 (resyncStep c acc job)).1 j hjr ts hok
    · intro j hj e herr
      rw [List.foldl_cons]
      rcases List.mem_cons.mp hj with rfl | hjr
      · refine foldl_resync_errs_mem c rest e _ ?_
        simp only [resyncStep, herr]
        exact List.mem_append_right _ (by simp)
      · exact (ih hnd2.2 (resyncStep c acc job)).2 j hjr e herr

/-- Claim C3: registering a timer set for a record id first destroys any
existing entry for that id, so registering twice for the same id leaves the
second set active (the registry binds the id to handles holding exactly the
second set of timers) while every timer handle of the first set is its old
timer stopped; and both register and destroy preserve the at-most-one-entry-
per-id registry invariant. -/
theorem register_twice_replaces_and_stops (st : SchedState) (hb : HeapBound st)
    (id : String) (A B : List CronJob) :
    (∀ tidsA, regLookup (recreateJobSchedule st id A).reg id = some tidsA →
      ∀ t ∈ tidsA,
        heapGet (recreateJobSchedule (recreateJobSchedule st id A) id B).heap t =
          (heapGet (recreateJobSchedule st id A).heap t).map CronJob.stop)
    ∧ (∃ tidsB,
        regLookup (recreateJobSchedule (recreateJobSchedule st id A) id B).reg id = some tidsB
        ∧ tidsB.length = B.length
        ∧ ∀ i : Nat, (tidsB[i]?).bind
            (heapGet (recreateJobSchedule (recreateJobSchedule st id A) id B).heap) = B[i]?)
    ∧ (RegKeysNodup st → RegKeysNodup (recreateJobSchedule st id A))
    ∧ (RegKeysNodup st → RegKeysNodup (destroySchedule st id)) := by
  refine ⟨?_, ?_, fun h => recreate_keys_nodup st id A h, fun h => destroy_keys_nodup st id h⟩
  · intro tidsA hA t htA
    have hX := recreate_reg_self st id A
    rw [hA] at hX
    have hA2 : tidsA = (allocTimers (destroySchedule st id) A).2 := Option.some.inj hX
    have hlt : t < (recreateJobSchedule st id A).next := by
      rw [recreate_next]
      have hmem := allocTimers_tids_lt A (destroySchedule st id) t (hA2 ▸ htA)
      rw [allocTimers_next, destroy_next] at hmem
      exact hmem
    rw [recreate_heapGet_old (recreateJobSchedule st id A) id B t hlt]
    exact destroy_heapGet_mem (recreateJobSchedule st id A) id tidsA t hA htA
  · refine ⟨(allocTimers (destroySchedule (recreateJobSchedule st id A) id) B).2,
      recreate_reg_self (recreateJobSchedule st id A) id B, ?_, ?_⟩
    · rw [allocTimers_tids_len]
    · intro i
      have hbd : HeapBound (destroySchedule (recreateJobSchedule st id A) id) :=
        destroy_bound _ _ (recreate_bound st id A hb)
      exact allocTimers_heapGet_new B (destroySchedule (recreateJobSchedule st id A) id) hbd i

/-- Witness for `register_twice_replaces_and_stops` at `sampleState`, id
`"a"`, first set `[timerA]` and second set `[timerB]`. -/
theorem register_twice_replaces_and_stops_witness :
    HeapBound sampleState
    ∧ ((∀ tidsA, regLookup (recreateJobSchedule sampleState "a" [timerA]).reg "a" = some tidsA →
        ∀ t ∈ tidsA,
          heapGet (recreateJobSchedule (recreateJobSchedule sampleState "a" [timerA]) "a"
            [timerB]).heap t =
            (heapGet (recreateJobSchedule sampleState "a" [timerA]).heap t).map CronJob.stop)
      ∧ (∃ tidsB,
          regLookup (recreateJobSchedule (recreateJobSchedule sampleState "a" [timerA]) "a"
            [timerB]).reg "a" = some tidsB
          ∧ tidsB.length = [timerB].length
          ∧ ∀ i : Nat, (tidsB[i]?).bind
              (heapGet (recreateJobSchedule (recreateJobSchedule sampleState "a" [timerA]) "a"
                [timerB]).heap) = [timerB][i]?)
      ∧ (RegKeysNodup sampleState →
          RegKeysNodup (recreateJobSchedule sampleState "a" [timerA]))
      ∧ (RegKeysNodup sampleState → RegKeysNodup (destroySchedule sampleState "a"))) :=
  ⟨by decide, register_twice_replaces_and_stops sampleState (by decide) "a" [timerA] [timerB]⟩

/-- Claim C5: during full resync over fetched records with distinct ids,
every record whose own composition succeeds ends with a registry entry in
the final state, and every per-record failure message is logged in the
returned error list, so one bad record never aborts the rest. -/
theorem resync_partial_failure_isolated (compose : JobRecord → Except String (List CronJob))
    (st : SchedState) (results : List JobRecord)
    (hnd : (results.map JobRecord.id).Nodup) :
    (∀ job ∈ results, ∀ ts, compose job = .ok ts →
      (regLookup (recreateScheduleForAllJobs compose st results).1.reg job.id).isSome = true)
    ∧ (∀ job ∈ results, ∀ e, compose job = .error e →
      e ∈ (recreateScheduleForAllJobs compose st results).2) := by
  unfold recreateScheduleForAllJobs
  exact resync_aux compose results hnd (destroySchedules st, [])

/-- Witness for `resync_partial_failure_isolated` at `resultsSample`, where
`composeSample` fails on the first record and succeeds on the second. -/
theorem resync_partial_failure_isolated_witness :
    (resultsSample.map JobRecord.id).Nodup
    ∧ ((∀ job ∈ resultsSample, ∀ ts, composeSample job = .ok ts →
        (regLookup (recreateScheduleForAllJobs composeSample sampleState resultsSample).1.reg
          job.id).isSome = true)
      ∧ (∀ job ∈ resultsSample, ∀ e, composeSample job = .error e →
        e ∈ (recreateScheduleForAllJobs composeSample sampleState resultsSample).2)) :=
  ⟨by decide,
    resync_partial_failure_isolated composeSample sampleState resultsSample (by decide)⟩

/-- Claim C7 (code evidence): when the outbound call of a job trigger fails,
nothing is thrown to the caller, but the failure is also neither caught nor
logged inside the trigger: the un-awaited `rp` promise turns it into an
unhandled rejection that bypasses the try/catch. -/
theorem performJob_failure_bypasses_catch (cfg : ParseConfig) (job : JobRecord) (e : String) :
    (performJob cfg job (.error e)).1.thrownToCaller = none
    ∧ (performJob cfg job (.error e)).1.errorLogged = []
    ∧ (performJob cfg job (.error e)).1.unhandledRejections = [e] :=
  ⟨rfl, rfl, rfl⟩

/-- Claim C8: every trigger invocation issues a POST request to the job-name
endpoint carrying the application id and master key as credential headers
with JSON mode on, and when the record has params they end up attached as
the request body. -/
theorem performJob_request_shape (cfg : ParseConfig) (job : JobRecord)
    (outcome : Except String Unit) (p : String) (hp : job.params = some p) :
    (performJob cfg job outcome).2.method = "POST"
    ∧ (performJob cfg job outcome).2.uri = cfg.serverURL ++ "/jobs/" ++ job.jobName
    ∧ (performJob cfg job outcome).2.headerAppId = cfg.applicationId
    ∧ (performJob cfg job outcome).2.headerMasterKey = cfg.masterKey
    ∧ (performJob cfg job outcome).2.json = true
    ∧ (performJob cfg job outcome).2.body = some p := by
  have hreq : (performJob cfg job outcome).2 = buildJobRequest cfg job := rfl
  rw [hreq]
  unfold buildJobRequest
  rw [hp]
  exact ⟨rfl, rfl, rfl, rfl, rfl, rfl⟩

/-- Witness for `performJob_request_shape` at `sampleConfig` and `sampleJob`,
whose params field is present. -/
theorem performJob_request_shape_witness :
    sampleJob.params = some "keyA:1"
    ∧ ((performJob sampleConfig sampleJob (.ok ())).2.method = "POST"
      ∧ (performJob sampleConfig sampleJob (.ok ())).2.uri =
          sampleConfig.serverURL ++ "/jobs/" ++ sampleJob.jobName
      ∧ (performJob sampleConfig sampleJob (.ok ())).2.headerAppId =
          sampleConfig.applicationId
      ∧ (performJob sampleConfig sampleJob (.ok ())).2.headerMasterKey =
          sampleConfig.masterKey
      ∧ (performJob sampleConfig sampleJob (.ok ())).2.json = true
      ∧ (performJob sampleConfig sampleJob (.ok ())).2.body = some "keyA:1") :=
  ⟨rfl, performJob_request_shape sampleConfig sampleJob (.ok ()) "keyA:1" rfl⟩

/-- Claim C9 (code evidence): handing a record id string to the incremental
resync entry point never reaches the fetched record: the un-awaited promise
fails the class-name guard, so it throws the invalid-job-type error for every
id, while the fetch helper itself always fails with a ReferenceError on the
unbound variable `job` regardless of what the persistence layer holds; only
the record-argument path proceeds. -/
theorem recreateSchedule_string_never_fetches (id : String)
    (fetch : String → Option JobRecord) :
    recreateScheduleStep (.byId id) = .error "Invalid job type. Must be a _JobSchedule"
    ∧ retreiveJobBy fetch id = .error "ReferenceError: job is not defined"
    ∧ ∀ j : JobRecord, recreateScheduleStep (.byRecord j) = .ok j :=
  ⟨rfl, rfl, fun _ => rfl⟩

end PSScheduler
